import Mathlib

/-!
Shallow embedding of the vendored go-fed/httpsig library
(`src/vendor/github.com/go-fed/httpsig/signing.go` and `verifying.go`),
together with theorems checking the specification's claims about it.

Conventions:
* Go strings are Lean `String`s; `[]byte` is `List Nat` (each element `< 256`).
* `http.Header` is an ordered association list from canonical MIME header
  keys to lists of values, mirroring Go's `map[string][]string` plus the
  canonicalization performed by `net/textproto`.
* Fallible Go functions return `Except String`; the `error` payload models
  the `fmt.Errorf` message (with `%q` rendered as plain double quoting).
* Go passes `bytes.Buffer` *by value* to the request-target callback in
  `signatureString`; the model keeps those value semantics: the callback
  returns the buffer copy it wrote, and the caller discards that copy.
-/

set_option autoImplicit false

deriving instance DecidableEq for Except

namespace Httpsig

/-- Go `strings.ToLower` (ASCII range; every string this library lowers is
ASCII). -/
def strToLower (s : String) : String := ⟨s.data.map Char.toLower⟩

/-- Go `strings.TrimSpace`: strip leading and trailing whitespace. -/
def trimSpace (s : String) : String :=
  ⟨((s.data.dropWhile Char.isWhitespace).reverse.dropWhile Char.isWhitespace).reverse⟩

/-- `net/textproto`: bytes allowed in a header field name (RFC 7230 token
characters). -/
def validHeaderFieldByte (c : Char) : Bool :=
  c.isAlphanum || c == '!' || c == '#' || c == '$' || c == '%' || c == '&' ||
  c == '\'' || c == '*' || c == '+' || c == '-' || c == '.' || c == '^' ||
  c == '_' || c == Char.ofNat 96 || c == '|' || c == '~'

/-- The casing loop of `textproto.CanonicalMIMEHeaderKey`: uppercase a letter
at the start or after a `-`, lowercase every other letter. -/
def canonicalizeChars : Bool → List Char → List Char
  | _, [] => []
  | upper, c :: cs =>
    let c2 := if upper then c.toUpper else c.toLower
    c2 :: canonicalizeChars (c2 == '-') cs

/-- Go `textproto.CanonicalMIMEHeaderKey`: returns the key unchanged when it
contains an invalid header byte, otherwise canonicalizes its casing. -/
def canonicalMIMEHeaderKey (s : String) : String :=
  if s.data.all validHeaderFieldByte then ⟨canonicalizeChars true s.data⟩ else s

/-- Go `http.Header`: an ordered association list whose stored keys are in
canonical MIME form (as produced by `http.Header.Add` and friends). -/
abbrev Header := List (String × List String)

/-- Go map indexing `values[textproto.CanonicalMIMEHeaderKey(key)]` with its
`ok` flag: `some` of all values stored under the canonical key. -/
def headerGetList (h : Header) (key : String) : Option (List String) :=
  match h with
  | [] => none
  | (k, vs) :: rest =>
    if k == canonicalMIMEHeaderKey key then some vs else headerGetList rest key

/-- Go `http.Header.Get`: first value under the canonical key, `""` when the
key is absent. -/
def headerGet (h : Header) (key : String) : String :=
  match headerGetList h key with
  | some (v :: _) => v
  | _ => ""

/-- Go `http.Header.Add`: append `value` to the values stored under the
canonical form of `key`, creating the entry when absent. -/
def headerAdd (h : Header) (key value : String) : Header :=
  match h with
  | [] => [(canonicalMIMEHeaderKey key, [value])]
  | (k, vs) :: rest =>
    if k == canonicalMIMEHeaderKey key then (k, vs ++ [value]) :: rest
    else (k, vs) :: headerAdd rest key value

/-! ### Constants from signing.go -/

def keyIdParameter : String := "keyId"
def algorithmParameter : String := "algorithm"
def headersParameter : String := "headers"
def signatureParameter : String := "signature"
def parameterKVSeparater : String := "="
def parameterValueDelimiter : String := "\""
def parameterSeparater : String := ","
def headerParameterValueDelim : String := " "
def RequestTarget : String := "(request-target)"
def dateHeader : String := "date"
def headerFieldDelimiter : String := ": "
def headersDelimiter : String := "\n"
def headerValueDelimiter : String := ", "
def requestTargetSeparator : String := " "
def defaultHeaders : List String := [dateHeader]

/-! ### Canonicalization (`signatureString`) -/

/-- An `http.Request`, reduced to the fields the library reads: `r.Method`,
`r.URL.String()`, and `r.Header`. -/
structure Request where
  method : String
  url : String
  header : Header

/-- The inner `for i, v := range hv` loop of `signatureString`: each value
trimmed, values joined with `headerValueDelimiter`. -/
def joinVals : List String → String
  | [] => ""
  | [v] => trimSpace v
  | v :: rest => trimSpace v ++ headerValueDelimiter ++ joinVals rest

/-- Go `addRequestTarget(r)`. The returned closure takes its `bytes.Buffer`
argument **by value** in the Go source, so the bytes it writes stay in its
local copy; the model returns that copy next to the (nil) error and the
caller ignores it, exactly as the Go caller does. -/
def addRequestTarget (r : Request) : String → String × Option String :=
  fun b =>
    (b ++ RequestTarget ++ headerFieldDelimiter ++ strToLower r.method ++
      requestTargetSeparator ++ r.url, none)

/-- Go `requestTargetNotPermitted`: always errors (used when signing
responses). -/
def requestTargetNotPermitted : String → String × Option String :=
  fun b =>
    (b, some ("cannot sign with \"(request-target)\" on anything other than an http request"))

/-- The `for n, i := range include` loop of `signatureString`, accumulating
the buffer `b`. -/
def sigStringLoop (values : Header) (requestTargetFn : String → String × Option String) :
    List String → String → Except String String
  | [], b => Except.ok b
  | i :: rest, b =>
    let il := strToLower i
    let step : Except String String :=
      if il == RequestTarget then
        match (requestTargetFn b).2 with
        | some e => Except.error e
        | none => Except.ok b
      else
        match headerGetList values il with
        | none => Except.error ("missing header \"" ++ il ++ "\"")
        | some hv => Except.ok (b ++ il ++ headerFieldDelimiter ++ joinVals hv)
    match step with
    | Except.error e => Except.error e
    | Except.ok b2 =>
      sigStringLoop values requestTargetFn rest
        (if rest.isEmpty then b2 else b2 ++ headersDelimiter)

/-- Go `signatureString` from signing.go: substitute `defaultHeaders` for an
empty component list, then run the loop on an empty buffer. -/
def signatureString (values : Header) (toInclude : List String)
    (requestTargetFn : String → String × Option String) : Except String String :=
  sigStringLoop values requestTargetFn
    (if toInclude.length == 0 then defaultHeaders else toInclude) ""

/-! ### Small string helpers used by the codec
Go's `strings.Split` / `strings.SplitN(_, _, 2)` / `strings.Trim` /
`strings.Contains`, specialized to the single-character separators this
library uses. -/

/-- Split a character list at every occurrence of `c`
(Go `strings.Split` with a one-character separator). -/
def splitChar (c : Char) : List Char → List (List Char)
  | [] => [[]]
  | x :: xs =>
    match splitChar c xs with
    | r :: rs => if x == c then [] :: r :: rs else (x :: r) :: rs
    | [] => []

/-- Go `strings.Split(s, parameterSeparater)`. -/
def splitComma (s : String) : List String :=
  (splitChar ',' s.data).map (fun l => ⟨l⟩)

/-- Break a character list at the first occurrence of `c`, returning the
pieces before and after it. -/
def breakAt (c : Char) : List Char → Option (List Char × List Char)
  | [] => none
  | x :: xs =>
    if x == c then some ([], xs)
    else (breakAt c xs).map (fun p => (x :: p.1, p.2))

/-- Go `strings.SplitN(p, parameterKVSeparater, 2)`. -/
def splitN2 (p : String) : List String :=
  match breakAt '=' p.data with
  | none => [p]
  | some (a, b) => [⟨a⟩, ⟨b⟩]

/-- Go `strings.Trim(v, parameterValueDelimiter)`: strip every leading and
trailing `"` character. -/
def trimQuotes (s : String) : String :=
  ⟨((s.data.dropWhile (· == '"')).reverse.dropWhile (· == '"')).reverse⟩

/-- Helper for Go `strings.Contains` on character lists. -/
def containsL : List Char → List Char → Bool
  | [], sub => sub.isEmpty
  | l@(_ :: t), sub => sub.isPrefixOf l || containsL t sub

/-- Go `strings.Contains(s, sub)`. -/
def strContains (s sub : String) : Bool := containsL s.data sub.data

/-! ### Serialization (`setSignatureHeader`) -/

/-- The `for i, h := range headers` loop of `setSignatureHeader`: entries
lowercased and separated by `headerParameterValueDelim`. -/
def writeHeadersLoop : List String → String
  | [] => ""
  | [h] => strToLower h
  | h :: rest => strToLower h ++ headerParameterValueDelim ++ writeHeadersLoop rest

/-- The header value built by `setSignatureHeader`'s `bytes.Buffer` writes,
with `defaultHeaders` substituted for an empty header list. -/
def sigHeaderValue (pubKeyId algo enc : String) (headers : List String) : String :=
  let headers := if headers.length == 0 then defaultHeaders else headers
  keyIdParameter ++ parameterKVSeparater ++ parameterValueDelimiter ++
    pubKeyId ++ parameterValueDelimiter ++ parameterSeparater ++
  algorithmParameter ++ parameterKVSeparater ++ parameterValueDelimiter ++
    algo ++ parameterValueDelimiter ++ parameterSeparater ++
  headersParameter ++ parameterKVSeparater ++ parameterValueDelimiter ++
    writeHeadersLoop headers ++ parameterValueDelimiter ++ parameterSeparater ++
  signatureParameter ++ parameterKVSeparater ++ parameterValueDelimiter ++
    enc ++ parameterValueDelimiter

/-- Go `setSignatureHeader`: `h.Add(targetHeader, b.String())`. -/
def setSignatureHeader (h : Header) (targetHeader pubKeyId algo enc : String)
    (headers : List String) : Header :=
  headerAdd h targetHeader (sigHeaderValue pubKeyId algo enc headers)

/-! ### The MAC capability and signer -/

/-- A Go `crypto.PrivateKey` / `crypto.PublicKey` (`interface\x7b\x7d`): the
library type-asserts it to `[]byte` for MAC use; `other` stands for every
value of a different dynamic type. -/
inductive GoKey where
  | bytes : List Nat → GoKey
  | other : GoKey

/-- Modelled from the spec: the keyed-MAC capability (`macer` in the
package's httpsig.go, which is not under src/) — a canonical algorithm name,
`Sign(sig, key) -> (bytes, error)` and `Equal(sig, actualMAC, key) ->
(bool, error)`, as used by signing.go and verifying.go. -/
structure Macer where
  name : String
  sign : List Nat → List Nat → Except String (List Nat)
  equal : List Nat → List Nat → List Nat → Except String Bool

/-- Modelled from the spec: the asymmetric-signer capability (`signer` in the
package's httpsig.go, not under src/) — a canonical algorithm name,
`Sign(rand, privateKey, sig) -> (bytes, error)` (randomness abstracted away)
and `Verify(publicKey, toHash, signature) -> error`. -/
structure SignerCap where
  name : String
  sign : GoKey → List Nat → Except String (List Nat)
  verify : GoKey → List Nat → List Nat → Option String

/-- Go `macSigner`: a MAC capability, the configured header list, and the
target signature scheme header ("Signature" or "Authorization"). -/
structure MacSigner where
  m : Macer
  headers : List String
  targetHeader : String

/-! ### Byte and base64 helpers (Go `[]byte(s)` and `encoding/base64`) -/

/-- UTF-8 encoding of one character (Go `[]byte(string)` byte layout). -/
def utf8Bytes (c : Char) : List Nat :=
  let n := c.toNat
  if n < 128 then [n]
  else if n < 2048 then [192 + n / 64, 128 + n % 64]
  else if n < 65536 then [224 + n / 4096, 128 + n / 64 % 64, 128 + n % 64]
  else [240 + n / 262144, 128 + n / 4096 % 64, 128 + n / 64 % 64, 128 + n % 64]

/-- Go `[]byte(s)`: the UTF-8 bytes of a string. -/
def strBytes (s : String) : List Nat := (s.data.map utf8Bytes).flatten

/-- The standard base64 alphabet (`encoding/base64.StdEncoding`). -/
def b64Char (n : Nat) : Char :=
  if n < 26 then Char.ofNat (65 + n)
  else if n < 52 then Char.ofNat (97 + (n - 26))
  else if n < 62 then Char.ofNat (48 + (n - 52))
  else if n == 62 then '+'
  else '/'

/-- Inverse of the standard base64 alphabet; `none` for characters outside
it (including the padding character). -/
def b64Val (c : Char) : Option Nat :=
  if 'A' ≤ c ∧ c ≤ 'Z' then some (c.toNat - 65)
  else if 'a' ≤ c ∧ c ≤ 'z' then some (c.toNat - 97 + 26)
  else if '0' ≤ c ∧ c ≤ '9' then some (c.toNat - 48 + 52)
  else if c = '+' then some 62
  else if c = '/' then some 63
  else none

/-- Go `base64.StdEncoding.EncodeToString`, as a character list: each group
of three bytes becomes four alphabet characters, with `=` padding for a
final group of one or two bytes. -/
def b64EncodeList : List Nat → List Char
  | [] => []
  | [a] => [b64Char (a / 4), b64Char (a % 4 * 16), '=', '=']
  | [a, b] => [b64Char (a / 4), b64Char (a % 4 * 16 + b / 16), b64Char (b % 16 * 4), '=']
  | a :: b :: c :: rest =>
    b64Char (a / 4) :: b64Char (a % 4 * 16 + b / 16) ::
      b64Char (b % 16 * 4 + c / 64) :: b64Char (c % 64) :: b64EncodeList rest

/-- Go `base64.StdEncoding.EncodeToString`. -/
def base64Encode (bs : List Nat) : String := ⟨b64EncodeList bs⟩

/-- Go `base64.StdEncoding.DecodeString`, as a character list: decode in
groups of four, allowing `=` padding only at the very end; `none` models a
`CorruptInputError`. -/
def b64DecodeGroups : List Char → Option (List Nat)
  | [] => some []
  | c0 :: c1 :: c2 :: c3 :: rest =>
    match b64Val c0, b64Val c1 with
    | some s0, some s1 =>
      if c2 = '=' then
        if c3 = '=' ∧ rest = [] then some [s0 * 4 + s1 / 16] else none
      else
        match b64Val c2 with
        | some s2 =>
          if c3 = '=' then
            if rest = [] then some [s0 * 4 + s1 / 16, s1 % 16 * 16 + s2 / 4] else none
          else
            match b64Val c3 with
            | some s3 =>
              (b64DecodeGroups rest).map
                (fun l => (s0 * 4 + s1 / 16) :: (s1 % 16 * 16 + s2 / 4) ::
                  (s2 % 4 * 64 + s3) :: l)
            | none => none
        | none => none
    | _, _ => none
  | _ => none

/-- Go `base64.StdEncoding.DecodeString`. -/
def base64Decode (s : String) : Option (List Nat) := b64DecodeGroups s.data

/-! ### Signing entry points -/

/-- Go `macSigner.signSignature`: type-assert the key to `[]byte`, MAC the
signature string, base64-encode the result. -/
def signSignature (ms : MacSigner) (pKey : GoKey) (s : String) : Except String String :=
  match pKey with
  | GoKey.other => Except.error "private key for MAC signing must be of type []byte"
  | GoKey.bytes pKeyBytes =>
    match ms.m.sign (strBytes s) pKeyBytes with
    | Except.error e => Except.error e
    | Except.ok sig => Except.ok (base64Encode sig)

/-- Go `macSigner.SignRequest`: build the signature string (request-target
permitted), MAC-sign it, and add the signature header. Go mutates
`r.Header`; the model returns the new header collection, the error branches
returning before any mutation exactly as the Go code does. -/
def SignRequest (ms : MacSigner) (pKey : GoKey) (pubKeyId : String) (r : Request) :
    Except String Header :=
  match signatureString r.header ms.headers (addRequestTarget r) with
  | Except.error e => Except.error e
  | Except.ok s =>
    match signSignature ms pKey s with
    | Except.error e => Except.error e
    | Except.ok enc =>
      Except.ok (setSignatureHeader r.header ms.targetHeader pubKeyId ms.m.name enc ms.headers)

/-! ### Verification -/

/-- Modelled from the spec: the `SignatureScheme` constant `Signature` (the
dedicated signature header slot), declared in the package's httpsig.go,
which is not under src/. -/
def Signature : String := "Signature"

/-- Modelled from the spec: the `SignatureScheme` constant `Authorization`
(the authorization-style header slot), declared in the package's httpsig.go,
which is not under src/. -/
def Authorization : String := "Authorization"

/-- The signature-parameter detection used twice inside
`getSignatureScheme`: the value contains the `keyId`, `headers` or
`signature` substring. -/
def sigParamsPresent (s : String) : Bool :=
  strContains s keyIdParameter || strContains s headersParameter ||
    strContains s signatureParameter

/-- Go `getSignatureScheme` from verifying.go. -/
def getSignatureScheme (h : Header) : Except String String :=
  let s := headerGet h Signature
  let sigHasAll := sigParamsPresent s
  let a := headerGet h Authorization
  let authHasAll := sigParamsPresent a
  if sigHasAll && authHasAll then
    Except.error ("both \"" ++ Signature ++ "\" and \"" ++ Authorization ++
      "\" have signature parameters")
  else if !sigHasAll && !authHasAll then
    Except.error ("neither \"" ++ Signature ++ "\" nor \"" ++ Authorization ++
      "\" have signature parameters")
  else if sigHasAll then Except.ok s
  else Except.ok a

/-- The scan loop of `getSignatureComponents`, threading the mutable
`kId`, `sig` and `headers` variables through the parameter tokens. -/
def scanParams : List String → String → String → List String →
    Except String (String × String × List String)
  | [], kId, sig, headers => Except.ok (kId, sig, headers)
  | p :: rest, kId, sig, headers =>
    match splitN2 p with
    | [k, v0] =>
      let v := trimQuotes v0
      if k == keyIdParameter then scanParams rest v sig headers
      else if k == algorithmParameter then scanParams rest kId sig headers
      else if k == headersParameter then
        scanParams rest kId sig ((splitChar ' ' v.data).map (fun l => ⟨l⟩))
      else if k == signatureParameter then scanParams rest kId v headers
      else scanParams rest kId sig headers
    | _ => Except.error ("malformed http signature parameter: [" ++ p ++ "]")

/-- Go `getSignatureComponents` from verifying.go: scan the comma-separated
tokens, then check `kId` and `sig` and default the header list. -/
def getSignatureComponents (s : String) : Except String (String × String × List String) :=
  match scanParams (splitComma s) "" "" [] with
  | Except.error e => Except.error e
  | Except.ok (kId, sig, headers) =>
    if kId.length == 0 then
      Except.error ("missing \"" ++ keyIdParameter ++ "\" parameter in http signature")
    else if sig.length == 0 then
      Except.error ("missing \"" ++ signatureParameter ++ "\" parameter in http signature")
    else if headers.length == 0 then Except.ok (kId, sig, defaultHeaders)
    else Except.ok (kId, sig, headers)

/-- Go `verifier` struct from verifying.go. -/
structure VerifierS where
  header : Header
  kId : String
  signature : String
  headers : List String
  sigStringFn : Header → List String → Except String String

/-- Go `newVerifier`: locate the scheme, parse its components, build the
verifier. -/
def newVerifier (h : Header) (sigStringFn : Header → List String → Except String String) :
    Except String VerifierS :=
  match getSignatureScheme h with
  | Except.error e => Except.error e
  | Except.ok s =>
    match getSignatureComponents s with
    | Except.error e => Except.error e
    | Except.ok (kId, sig, headers) => Except.ok ⟨h, kId, sig, headers, sigStringFn⟩

/-- Modelled from the spec: `NewVerifier(r)` for requests (in the package's
httpsig.go, not under src/) builds the verifier from the request's headers
with a canonicalizer that permits the request target. -/
def newVerifierRequest (r : Request) : Except String VerifierS :=
  newVerifier r.header
    (fun h toInclude => signatureString h toInclude (addRequestTarget r))

/-- Go `verifier.KeyId`. -/
def KeyId (v : VerifierS) : String := v.kId

/-- Go `verifier.macVerify`. -/
def macVerify (v : VerifierS) (m : Macer) (pKey : GoKey) : Except String Unit :=
  match pKey with
  | GoKey.other => Except.error "public key for MAC verifying must be of type []byte"
  | GoKey.bytes key =>
    match v.sigStringFn v.header v.headers with
    | Except.error e => Except.error e
    | Except.ok signature =>
      match base64Decode v.signature with
      | none => Except.error "illegal base64 data"
      | some actualMAC =>
        match m.equal (strBytes signature) actualMAC key with
        | Except.error e => Except.error e
        | Except.ok true => Except.ok ()
        | Except.ok false => Except.error "invalid http signature"

/-- Go `verifier.asymmVerify`. -/
def asymmVerify (v : VerifierS) (s : SignerCap) (pKey : GoKey) : Except String Unit :=
  match v.sigStringFn v.header v.headers with
  | Except.error e => Except.error e
  | Except.ok toHash =>
    match base64Decode v.signature with
    | none => Except.error "illegal base64 data"
    | some signature =>
      match s.verify pKey (strBytes toHash) signature with
      | some e => Except.error e
      | none => Except.ok ()

/-- Modelled from the spec: the algorithm registry (`signerFromString` and
`macerFromString` in the package's httpsig.go, not under src/), resolving a
textual algorithm name to an asymmetric-signer or MAC capability. -/
structure Registry where
  signers : String → Option SignerCap
  macers : String → Option Macer

/-- Go `verifier.Verify`: try the asymmetric resolution first, then MAC,
else fail with the no-implementation error. -/
def Verify (reg : Registry) (v : VerifierS) (pKey : GoKey) (algo : String) :
    Except String Unit :=
  match reg.signers algo with
  | some s => asymmVerify v s pKey
  | none =>
    match reg.macers algo with
    | some m => macVerify v m pKey
    | none => Except.error ("no crypto implementation available for \"" ++ algo ++ "\"")

/-! ### Specification-side definitions (for refinement claims)
These follow the specification's words, to be compared with the
source-derived definitions above. -/

/-- Join lines with a newline and no trailing newline (spec wording). -/
def joinNL : List String → String
  | [] => ""
  | [l] => l
  | l :: ls => l ++ "\n" ++ joinNL ls

/-- Join values with a comma and space (spec wording). -/
def joinCommaSp : List String → String
  | [] => ""
  | [v] => v
  | v :: rest => v ++ ", " ++ joinCommaSp rest

/-- Join identifiers with single spaces (spec wording). -/
def joinSpace : List String → String
  | [] => ""
  | [x] => x
  | x :: rest => x ++ " " ++ joinSpace rest

/-- The canonical string as the specification words it for real headers:
lines `<lowercased-identifier>: <value>` joined with a newline and no
trailing newline, where `<value>` is all occurrences of the header, each
trimmed of surrounding whitespace, joined with a comma and space in
occurrence order. -/
def specCanonical (values : Header) (toInclude : List String) : String :=
  joinNL (toInclude.map (fun i =>
    strToLower i ++ ": " ++
      joinCommaSp (((headerGetList values (strToLower i)).getD []).map trimSpace)))

/-! ### Observers used to state parsing claims -/

/-- A parameter token carries an `=`-delimited key/value pair. -/
def hasKV (p : String) : Bool := (breakAt '=' p.data).isSome

/-- The key part of a parameter token (the text before its first `=`; the
whole token when it has no `=`). -/
def paramKey (p : String) : String :=
  match breakAt '=' p.data with
  | some q => ⟨q.1⟩
  | none => p

/-! ### Concrete fixtures for witnesses -/

/-- The request of the specification's worked example: a GET to `/foo` with
a single `Date` header. -/
def c1Request : Request :=
  { method := "GET", url := "/foo",
    header := [("Date", ["Tue, 07 Jun 2014 20:51:35 GMT"])] }

/-- A toy MAC capability for concrete witnesses: the MAC of `d` under key
`k` is `d ++ k` (reduced mod 256), and `equal` recomputes and compares. -/
def demoMacer : Macer :=
  { name := "demo-mac",
    sign := fun d k => Except.ok ((d ++ k).map (· % 256)),
    equal := fun d cand k => Except.ok (((d ++ k).map (· % 256)) == cand) }

/-- A registry that resolves exactly the name of `demoMacer`, and no
asymmetric algorithm. -/
def demoRegistry : Registry :=
  { signers := fun _ => none,
    macers := fun n => if n == demoMacer.name then some demoMacer else none }

/-- The header collection produced by signing `c1Request` over `["date"]`
with `demoMacer` under key `[1,2,3]` and keyId `"test-key"`. -/
def c8SignedHeader : Header :=
  [("Date", ["Tue, 07 Jun 2014 20:51:35 GMT"]),
   ("Signature",
    ["keyId=\"test-key\",algorithm=\"demo-mac\",headers=\"date\",signature=\"ZGF0ZTogVHVlLCAwNyBKdW4gMjAxNCAyMDo1MTozNSBHTVQBAgM=\""])]

/-! ## Helper lemmas -/

theorem mk_data (s : String) : String.mk s.data = s := rfl

theorem splitChar_ne_nil (c : Char) (l : List Char) : splitChar c l ≠ [] := by
  induction l with
  | nil => simp [splitChar]
  | cons x xs ih =>
    simp only [splitChar]
    cases h : splitChar c xs with
    | nil => exact absurd h ih
    | cons r rs => by_cases hx : x == c <;> simp [hx]

theorem splitChar_no_sep (c : Char) (l : List Char) (h : ∀ x ∈ l, x ≠ c) :
    splitChar c l = [l] := by
  induction l with
  | nil => rfl
  | cons x xs ih =>
    have hx : x ≠ c := h x (by simp)
    have ih2 := ih (fun y hy => h y (by simp [hy]))
    simp [splitChar, ih2, hx]

theorem splitChar_append (c : Char) (a b : List Char) (h : ∀ x ∈ a, x ≠ c) :
    splitChar c (a ++ c :: b) = a :: splitChar c b := by
  induction a with
  | nil =>
    simp only [List.nil_append, splitChar]
    cases hs : splitChar c b with
    | nil => exact absurd hs (splitChar_ne_nil c b)
    | cons r rs => simp
  | cons x xs ih =>
    have hx : x ≠ c := h x (by simp)
    have ih2 := ih (fun y hy => h y (by simp [hy]))
    simp [splitChar, ih2, hx]

theorem breakAt_none (c : Char) (l : List Char) (h : ∀ x ∈ l, x ≠ c) :
    breakAt c l = none := by
  induction l with
  | nil => rfl
  | cons x xs ih =>
    have hx : x ≠ c := h x (by simp)
    simp [breakAt, hx, ih (fun y hy => h y (by simp [hy]))]

theorem breakAt_append (c : Char) (a b : List Char) (h : ∀ x ∈ a, x ≠ c) :
    breakAt c (a ++ c :: b) = some (a, b) := by
  induction a with
  | nil => simp [breakAt]
  | cons x xs ih =>
    have hx : x ≠ c := h x (by simp)
    simp [breakAt, hx, ih (fun y hy => h y (by simp [hy]))]

theorem dropWhile_of_all_false {p : Char → Bool} (l : List Char)
    (h : ∀ x ∈ l, p x = false) : l.dropWhile p = l := by
  cases l with
  | nil => rfl
  | cons x xs => simp [List.dropWhile, h x (by simp)]

theorem trimQuotes_wrap (s : String) (hne : s ≠ "")
    (h : ∀ x ∈ s.data, x ≠ '"') :
    trimQuotes (parameterValueDelimiter ++ s ++ parameterValueDelimiter) = s := by
  have hdata : (parameterValueDelimiter ++ s ++ parameterValueDelimiter).data
      = '"' :: s.data ++ ['"'] := by
    simp [parameterValueDelimiter, String.data_append]
  have hsd : s.data ≠ [] := by
    intro habs
    exact hne (String.ext habs)
  apply String.ext
  show ((((parameterValueDelimiter ++ s ++ parameterValueDelimiter).data.dropWhile
      (· == '"')).reverse.dropWhile (· == '"')).reverse) = s.data
  rw [hdata]
  cases hd : s.data with
  | nil => exact absurd hd hsd
  | cons y ys =>
    have hy : (y == '"') = false := by
      simp only [beq_eq_false_iff_ne]
      exact h y (by simp [hd])
    have step1 : (('"' :: (y :: ys) ++ ['"']).dropWhile (· == '"'))
        = (y :: ys) ++ ['"'] := by
      simp [List.dropWhile, hy]
    rw [step1]
    have step2 : ((y :: ys) ++ ['"']).reverse = '"' :: (y :: ys).reverse := by
      simp
    rw [step2]
    have step3 : (('"' :: (y :: ys).reverse).dropWhile (· == '"'))
        = (y :: ys).reverse.dropWhile (· == '"') := by
      simp [List.dropWhile]
    rw [step3]
    have step4 : ((y :: ys).reverse.dropWhile (· == '"')) = (y :: ys).reverse := by
      apply dropWhile_of_all_false
      intro x hx
      simp only [beq_eq_false_iff_ne]
      exact h x (by rw [hd]; exact List.mem_reverse.mp hx)
    rw [step4, List.reverse_reverse]

theorem splitN2_of_key (k v : String) (hk : ∀ x ∈ k.data, x ≠ '=') :
    splitN2 (k ++ parameterKVSeparater ++ v) = [k, v] := by
  have hdata : (k ++ parameterKVSeparater ++ v).data = k.data ++ '=' :: v.data := by
    simp [parameterKVSeparater, String.data_append]
  simp [splitN2, hdata, breakAt_append _ _ _ hk, mk_data]

theorem charToLower_idem (c : Char) : c.toLower.toLower = c.toLower := by
  have hofNat : ∀ m, m < 123 → 96 < m → (Char.ofNat m).toNat = m := by decide
  by_cases h : c.toNat ≥ 65 ∧ c.toNat ≤ 90
  · have h1 : c.toLower = Char.ofNat (c.toNat + 32) := by
      unfold Char.toLower
      rw [if_pos h]
    have ht : (Char.ofNat (c.toNat + 32)).toNat = c.toNat + 32 :=
      hofNat _ (by omega) (by omega)
    rw [h1]
    unfold Char.toLower
    rw [if_neg]
    rw [ht]
    omega
  · have h1 : c.toLower = c := by
      unfold Char.toLower
      rw [if_neg h]
    rw [h1, h1]

theorem strToLower_idem (s : String) : strToLower (strToLower s) = strToLower s := by
  apply String.ext
  show (s.data.map Char.toLower).map Char.toLower = s.data.map Char.toLower
  rw [List.map_map]
  exact List.map_congr_left (fun c _ => charToLower_idem c)

theorem strToLower_mk (l : List Char) : strToLower ⟨l⟩ = ⟨l.map Char.toLower⟩ := rfl

/-! ### `headerAdd` frame lemmas -/

theorem headerGetList_headerAdd_self (h : Header) (key v : String) :
    headerGetList (headerAdd h key v) key
      = some (((headerGetList h key).getD []) ++ [v]) := by
  induction h with
  | nil => simp [headerAdd, headerGetList]
  | cons e rest ih =>
    obtain ⟨k, vs⟩ := e
    by_cases hk : k == canonicalMIMEHeaderKey key
    · simp [headerAdd, headerGetList, hk]
    · simp [headerAdd, headerGetList, hk, ih]

theorem headerGetList_headerAdd_ne (h : Header) (key v k2 : String)
    (hne : canonicalMIMEHeaderKey k2 ≠ canonicalMIMEHeaderKey key) :
    headerGetList (headerAdd h key v) k2 = headerGetList h k2 := by
  induction h with
  | nil =>
    have : (canonicalMIMEHeaderKey key == canonicalMIMEHeaderKey k2) = false := by
      simp only [beq_eq_false_iff_ne]
      exact fun habs => hne habs.symm
    simp [headerAdd, headerGetList, this]
  | cons e rest ih =>
    obtain ⟨k, vs⟩ := e
    by_cases hk : k == canonicalMIMEHeaderKey key
    · have hk2 : (k == canonicalMIMEHeaderKey k2) = false := by
        simp only [beq_eq_false_iff_ne]
        intro habs
        exact hne (habs.symm.trans (by simpa using hk))
      simp [headerAdd, headerGetList, hk, hk2]
    · by_cases hk2 : k == canonicalMIMEHeaderKey k2
      · simp [headerAdd, headerGetList, hk, hk2]
      · simp [headerAdd, headerGetList, hk, hk2, ih]

/-! ### `scanParams` lemmas -/

theorem scanParams_malformed (a : List String) (p : String) (b : List String)
    (ha : ∀ t ∈ a, hasKV t = true) (hp : hasKV p = false) :
    ∀ (k s : String) (hs : List String),
      scanParams (a ++ p :: b) k s hs
        = Except.error ("malformed http signature parameter: [" ++ p ++ "]") := by
  induction a with
  | nil =>
    intro k s hs
    have hb : breakAt '=' p.data = none := by
      unfold hasKV at hp
      cases hbr : breakAt '=' p.data with
      | none => rfl
      | some q => rw [hbr] at hp; simp at hp
    simp [scanParams, splitN2, hb]
  | cons t a2 ih =>
    intro k s hs
    have ht := ha t (by simp)
    obtain ⟨⟨x, y⟩, hq⟩ : ∃ q, breakAt '=' t.data = some q := by
      unfold hasKV at ht
      cases hbr : breakAt '=' t.data with
      | none => rw [hbr] at ht; simp at ht
      | some q => exact ⟨q, rfl⟩
    have ih2 := ih (fun u hu => ha u (by simp [hu]))
    simp only [List.cons_append, scanParams, splitN2, hq]
    split <;> first | exact ih2 _ _ _ | skip
    split <;> first | exact ih2 _ _ _ | skip
    split <;> first | exact ih2 _ _ _ | skip
    split <;> exact ih2 _ _ _

theorem scanParams_keeps_kId (toks : List String)
    (h : ∀ t ∈ toks, hasKV t = true)
    (hk : ∀ t ∈ toks, paramKey t ≠ keyIdParameter) :
    ∀ (k s : String) (hs : List String),
      ∃ s2 hs2, scanParams toks k s hs = Except.ok (k, s2, hs2) := by
  induction toks with
  | nil => exact fun k s hs => ⟨s, hs, rfl⟩
  | cons t ts ih =>
    intro k s hs
    have ht := h t (by simp)
    obtain ⟨⟨x, y⟩, hq⟩ : ∃ q, breakAt '=' t.data = some q := by
      unfold hasKV at ht
      cases hbr : breakAt '=' t.data with
      | none => rw [hbr] at ht; simp at ht
      | some q => exact ⟨q, rfl⟩
    have hkey : (String.mk x == keyIdParameter) = false := by
      simp only [beq_eq_false_iff_ne]
      have := hk t (by simp)
      unfold paramKey at this
      rw [hq] at this
      exact this
    have ih2 := ih (fun u hu => h u (by simp [hu])) (fun u hu => hk u (by simp [hu]))
    simp only [scanParams, splitN2, hq, hkey, Bool.false_eq_true, if_false]
    split
    · exact ih2 _ _ _
    · split
      · exact ih2 _ _ _
      · split
        · exact ih2 _ _ _
        · exact ih2 _ _ _

theorem scanParams_keeps_sig (toks : List String)
    (h : ∀ t ∈ toks, hasKV t = true)
    (hk : ∀ t ∈ toks, paramKey t ≠ signatureParameter) :
    ∀ (k s : String) (hs : List String),
      ∃ k2 hs2, scanParams toks k s hs = Except.ok (k2, s, hs2) := by
  induction toks with
  | nil => exact fun k s hs => ⟨k, hs, rfl⟩
  | cons t ts ih =>
    intro k s hs
    have ht := h t (by simp)
    obtain ⟨⟨x, y⟩, hq⟩ : ∃ q, breakAt '=' t.data = some q := by
      unfold hasKV at ht
      cases hbr : breakAt '=' t.data with
      | none => rw [hbr] at ht; simp at ht
      | some q => exact ⟨q, rfl⟩
    have hkey : (String.mk x == signatureParameter) = false := by
      simp only [beq_eq_false_iff_ne]
      have := hk t (by simp)
      unfold paramKey at this
      rw [hq] at this
      exact this
    have ih2 := ih (fun u hu => h u (by simp [hu])) (fun u hu => hk u (by simp [hu]))
    simp only [scanParams, splitN2, hq, hkey, Bool.false_eq_true, if_false]
    split
    · exact ih2 _ _ _
    · split
      · exact ih2 _ _ _
      · split
        · exact ih2 _ _ _
        · exact ih2 _ _ _

theorem scanParams_keeps_headers (toks : List String)
    (h : ∀ t ∈ toks, hasKV t = true)
    (hk : ∀ t ∈ toks, paramKey t ≠ headersParameter) :
    ∀ (k s : String) (hs : List String),
      ∃ k2 s2, scanParams toks k s hs = Except.ok (k2, s2, hs) := by
  induction toks with
  | nil => exact fun k s hs => ⟨k, s, rfl⟩
  | cons t ts ih =>
    intro k s hs
    have ht := h t (by simp)
    obtain ⟨⟨x, y⟩, hq⟩ : ∃ q, breakAt '=' t.data = some q := by
      unfold hasKV at ht
      cases hbr : breakAt '=' t.data with
      | none => rw [hbr] at ht; simp at ht
      | some q => exact ⟨q, rfl⟩
    have hkey : (String.mk x == headersParameter) = false := by
      simp only [beq_eq_false_iff_ne]
      have := hk t (by simp)
      unfold paramKey at this
      rw [hq] at this
      exact this
    have ih2 := ih (fun u hu => h u (by simp [hu])) (fun u hu => hk u (by simp [hu]))
    simp only [scanParams, splitN2, hq, hkey, Bool.false_eq_true, if_false]
    split
    · exact ih2 _ _ _
    · split
      · exact ih2 _ _ _
      · split
        · exact ih2 _ _ _
        · exact ih2 _ _ _

/-! ### Join lemmas -/

theorem joinNL_cons_cons (l m : String) (ls : List String) :
    joinNL (l :: m :: ls) = l ++ "\n" ++ joinNL (m :: ls) := rfl

theorem joinVals_eq (vs : List String) : joinVals vs = joinCommaSp (vs.map trimSpace) := by
  induction vs with
  | nil => rfl
  | cons v rest ih =>
    cases rest with
    | nil => rfl
    | cons w ws =>
      show trimSpace v ++ headerValueDelimiter ++ joinVals (w :: ws)
          = trimSpace v ++ ", " ++ joinCommaSp ((w :: ws).map trimSpace)
      rw [ih]
      rfl

theorem writeHeadersLoop_eq (hs : List String) :
    writeHeadersLoop hs = joinSpace (hs.map strToLower) := by
  induction hs with
  | nil => rfl
  | cons x rest ih =>
    cases rest with
    | nil => rfl
    | cons y ys =>
      show strToLower x ++ headerParameterValueDelim ++ writeHeadersLoop (y :: ys)
          = strToLower x ++ " " ++ joinSpace ((y :: ys).map strToLower)
      rw [ih]
      rfl

theorem isEmpty_map (f : String → String) (l : List String) :
    (l.map f).isEmpty = l.isEmpty := by
  cases l <;> rfl

/-! ### `splitChar` applied to `writeHeadersLoop` output -/

theorem splitChar_writeHeadersLoop :
    ∀ hs : List String, hs ≠ [] →
      (∀ x ∈ hs, strToLower x ≠ "" ∧ ∀ ch ∈ (strToLower x).data, ch ≠ ' ') →
      (splitChar ' ' (writeHeadersLoop hs).data).map (fun l => (⟨l⟩ : String))
        = hs.map strToLower := by
  intro hs
  induction hs with
  | nil => intro h; exact absurd rfl h
  | cons x rest ih =>
    intro _ hwf
    have hx := hwf x (by simp)
    cases rest with
    | nil =>
      show (splitChar ' ' (strToLower x).data).map (fun l => (⟨l⟩ : String))
          = [strToLower x]
      rw [splitChar_no_sep _ _ hx.2]
      simp [mk_data]
    | cons y ys =>
      have hdata : (writeHeadersLoop (x :: y :: ys)).data
          = (strToLower x).data ++ ' ' :: (writeHeadersLoop (y :: ys)).data := by
        show (strToLower x ++ headerParameterValueDelim ++ writeHeadersLoop (y :: ys)).data
            = (strToLower x).data ++ ' ' :: (writeHeadersLoop (y :: ys)).data
        simp [String.data_append, headerParameterValueDelim]
      rw [hdata, splitChar_append _ _ _ hx.2]
      have ih2 := ih (by simp) (fun u hu => hwf u (by simp [hu]))
      simp only [List.map_cons, mk_data, ih2]

/-! ### `sigStringLoop` lemmas -/

theorem sigStringLoop_cons_some (values : Header) (fn : String → String × Option String)
    (i : String) (rest : List String) (b : String) (hv : List String)
    (hi : (strToLower i == RequestTarget) = false)
    (hlook : headerGetList values (strToLower i) = some hv) :
    sigStringLoop values fn (i :: rest) b
      = sigStringLoop values fn rest
          (if rest.isEmpty then b ++ strToLower i ++ headerFieldDelimiter ++ joinVals hv
           else b ++ strToLower i ++ headerFieldDelimiter ++ joinVals hv ++ headersDelimiter) := by
  simp only [sigStringLoop, hi, Bool.false_eq_true, if_false, hlook]

theorem sigStringLoop_ok (values : Header) (fn : String → String × Option String) :
    ∀ (toInclude : List String), toInclude ≠ [] →
      (∀ i ∈ toInclude, strToLower i ≠ RequestTarget) →
      (∀ i ∈ toInclude, (headerGetList values (strToLower i)).isSome) →
      ∀ b : String,
      sigStringLoop values fn toInclude b
        = Except.ok (b ++ specCanonical values toInclude) := by
  intro toInclude
  induction toInclude with
  | nil => intro h; exact absurd rfl h
  | cons i rest ih =>
    intro _ hrt hpres b
    have hi : (strToLower i == RequestTarget) = false := by
      simp only [beq_eq_false_iff_ne]
      exact hrt i (by simp)
    obtain ⟨hv, hlook⟩ : ∃ hv, headerGetList values (strToLower i) = some hv := by
      have := hpres i (by simp)
      cases hl : headerGetList values (strToLower i) with
      | none => rw [hl] at this; simp at this
      | some hv => exact ⟨hv, rfl⟩
    rw [sigStringLoop_cons_some values fn i rest b hv hi hlook]
    cases rest with
    | nil =>
      show Except.ok (b ++ strToLower i ++ headerFieldDelimiter ++ joinVals hv)
          = Except.ok (b ++ specCanonical values [i])
      have hspec : specCanonical values [i]
          = strToLower i ++ ": " ++ joinCommaSp (hv.map trimSpace) := by
        simp [specCanonical, joinNL, hlook]
      rw [hspec, ← joinVals_eq]
      simp only [String.append_assoc]
      rfl
    | cons y ys =>
      have ih2 := ih (by simp) (fun u hu => hrt u (by simp [hu]))
        (fun u hu => hpres u (by simp [hu]))
      show sigStringLoop values fn (y :: ys)
          (b ++ strToLower i ++ headerFieldDelimiter ++ joinVals hv ++ headersDelimiter)
          = _
      rw [ih2]
      have hspec : specCanonical values (i :: y :: ys)
          = (strToLower i ++ ": " ++ joinCommaSp (hv.map trimSpace)) ++ ("\n"
            ++ specCanonical values (y :: ys)) := by
        show joinNL _ = _
        rw [List.map_cons, List.map_cons, joinNL_cons_cons]
        simp [specCanonical, hlook, String.append_assoc]
      rw [hspec, ← joinVals_eq]
      simp only [String.append_assoc]
      rfl

theorem sigStringLoop_missing (values : Header) (fn : String → String × Option String) :
    ∀ (toInclude : List String),
      (∀ i ∈ toInclude, strToLower i ≠ RequestTarget) →
      (∃ i ∈ toInclude, headerGetList values (strToLower i) = none) →
      ∀ b : String,
      ∃ i ∈ toInclude, sigStringLoop values fn toInclude b
        = Except.error ("missing header \"" ++ strToLower i ++ "\"") := by
  intro toInclude
  induction toInclude with
  | nil => intro _ habs; simp at habs
  | cons i rest ih =>
    intro hrt habs b
    have hi : (strToLower i == RequestTarget) = false := by
      simp only [beq_eq_false_iff_ne]
      exact hrt i (by simp)
    cases hlook : headerGetList values (strToLower i) with
    | none =>
      refine ⟨i, by simp, ?_⟩
      simp [sigStringLoop, hi, hlook]
    | some hv =>
      have hrest : ∃ j ∈ rest, headerGetList values (strToLower j) = none := by
        obtain ⟨j, hj, hjnone⟩ := habs
        rcases List.mem_cons.mp hj with rfl | hjr
        · rw [hlook] at hjnone; exact absurd hjnone (by simp)
        · exact ⟨j, hjr, hjnone⟩
      obtain ⟨j, hj, hres⟩ := ih (fun u hu => hrt u (by simp [hu])) hrest
        (if (rest.isEmpty) then b ++ strToLower i ++ headerFieldDelimiter ++ joinVals hv
         else b ++ strToLower i ++ headerFieldDelimiter ++ joinVals hv ++ headersDelimiter)
      refine ⟨j, by simp [hj], ?_⟩
      simp only [sigStringLoop, hi, Bool.false_eq_true, if_false, hlook]
      split <;> simp_all

theorem sigStringLoop_map_toLower (values : Header) (fn : String → String × Option String) :
    ∀ (l : List String) (b : String),
      sigStringLoop values fn (l.map strToLower) b = sigStringLoop values fn l b := by
  intro l
  induction l with
  | nil => intro b; rfl
  | cons i rest ih =>
    intro b
    show sigStringLoop values fn (strToLower i :: rest.map strToLower) b = _
    simp only [sigStringLoop, strToLower_idem]
    cases hstep : (if (strToLower i == RequestTarget) = true then
        match (fn b).2 with
        | some e => Except.error e
        | none => Except.ok b
      else
        match headerGetList values (strToLower i) with
        | none => Except.error ("missing header \"" ++ strToLower i ++ "\"")
        | some hv =>
          Except.ok (b ++ strToLower i ++ headerFieldDelimiter ++ joinVals hv) :
        Except String String) with
    | error e => rfl
    | ok b2 =>
      rw [isEmpty_map]
      exact ih _

theorem sigStringLoop_headerAdd (values : Header) (key v : String)
    (fn : String → String × Option String) :
    ∀ (l : List String),
      (∀ i ∈ l, canonicalMIMEHeaderKey (strToLower i) ≠ canonicalMIMEHeaderKey key) →
      ∀ b : String,
      sigStringLoop (headerAdd values key v) fn l b = sigStringLoop values fn l b := by
  intro l
  induction l with
  | nil => intro _ b; rfl
  | cons i rest ih =>
    intro hne b
    have hlook : headerGetList (headerAdd values key v) (strToLower i)
        = headerGetList values (strToLower i) :=
      headerGetList_headerAdd_ne values key v (strToLower i) (hne i (by simp))
    simp only [sigStringLoop, hlook]
    cases hstep : (if (strToLower i == RequestTarget) = true then
        match (fn b).2 with
        | some e => Except.error e
        | none => Except.ok b
      else
        match headerGetList values (strToLower i) with
        | none => Except.error ("missing header \"" ++ strToLower i ++ "\"")
        | some hv =>
          Except.ok (b ++ strToLower i ++ headerFieldDelimiter ++ joinVals hv) :
        Except String String) with
    | error e => rfl
    | ok b2 => exact ih (fun u hu => hne u (by simp [hu])) _

/-! ### Base64 lemmas -/

theorem b64Val_b64Char : ∀ n, n < 64 → b64Val (b64Char n) = some n := by decide

theorem b64Char_ne : ∀ n, n < 64 →
    b64Char n ≠ '=' ∧ b64Char n ≠ ',' ∧ b64Char n ≠ '"' ∧ b64Char n ≠ ' ' := by decide

theorem b64_roundtrip :
    ∀ (bs : List Nat), (∀ x ∈ bs, x < 256) →
      b64DecodeGroups (b64EncodeList bs) = some bs
  | [], _ => rfl
  | [a], h => by
    have ha : a < 256 := h a (by simp)
    have h0 := b64Val_b64Char (a / 4) (by omega)
    have h1 := b64Val_b64Char (a % 4 * 16) (by omega)
    show b64DecodeGroups [b64Char (a / 4), b64Char (a % 4 * 16), '=', '='] = some [a]
    simp only [b64DecodeGroups, h0, h1, if_pos rfl]
    have e1 : a / 4 * 4 + a % 4 * 16 / 16 = a := by omega
    rw [e1]
    simp
  | [a, b], h => by
    have ha : a < 256 := h a (by simp)
    have hb : b < 256 := h b (by simp)
    have h0 := b64Val_b64Char (a / 4) (by omega)
    have h1 := b64Val_b64Char (a % 4 * 16 + b / 16) (by omega)
    have h2 := b64Val_b64Char (b % 16 * 4) (by omega)
    have h2ne : b64Char (b % 16 * 4) ≠ '=' := (b64Char_ne _ (by omega)).1
    show b64DecodeGroups
        [b64Char (a / 4), b64Char (a % 4 * 16 + b / 16), b64Char (b % 16 * 4), '=']
        = some [a, b]
    simp only [b64DecodeGroups, h0, h1, h2, if_neg h2ne, if_pos rfl]
    have e1 : a / 4 * 4 + (a % 4 * 16 + b / 16) / 16 = a := by omega
    have e2 : (a % 4 * 16 + b / 16) % 16 * 16 + b % 16 * 4 / 4 = b := by omega
    rw [e1, e2]
    simp
  | a :: b :: c :: rest, h => by
    have ha : a < 256 := h a (by simp)
    have hb : b < 256 := h b (by simp)
    have hc : c < 256 := h c (by simp)
    have h0 := b64Val_b64Char (a / 4) (by omega)
    have h1 := b64Val_b64Char (a % 4 * 16 + b / 16) (by omega)
    have h2 := b64Val_b64Char (b % 16 * 4 + c / 64) (by omega)
    have h3 := b64Val_b64Char (c % 64) (by omega)
    have h2ne : b64Char (b % 16 * 4 + c / 64) ≠ '=' := (b64Char_ne _ (by omega)).1
    have h3ne : b64Char (c % 64) ≠ '=' := (b64Char_ne _ (by omega)).1
    have ih := b64_roundtrip rest (fun x hx => h x (by simp [hx]))
    show b64DecodeGroups
        (b64Char (a / 4) :: b64Char (a % 4 * 16 + b / 16) ::
          b64Char (b % 16 * 4 + c / 64) :: b64Char (c % 64) ::
          b64EncodeList rest) = some (a :: b :: c :: rest)
    simp only [b64DecodeGroups, h0, h1, h2, h3, if_neg h2ne, if_neg h3ne, ih,
      Option.map_some]
    have e1 : a / 4 * 4 + (a % 4 * 16 + b / 16) / 16 = a := by omega
    have e2 : (a % 4 * 16 + b / 16) % 16 * 16 + (b % 16 * 4 + c / 64) / 4 = b := by omega
    have e3 : (b % 16 * 4 + c / 64) % 4 * 64 + c % 64 = c := by omega
    rw [e1, e2, e3]
    simp

theorem b64Char_surj (k : Nat) : ∃ n, n < 64 ∧ b64Char k = b64Char n := by
  by_cases h : k < 64
  · exact ⟨k, h, rfl⟩
  · refine ⟨63, by omega, ?_⟩
    unfold b64Char
    have h1 : ¬ k < 26 := by omega
    have h2 : ¬ k < 52 := by omega
    have h3 : ¬ k < 62 := by omega
    have h4 : (k == 62) = false := by
      simp only [beq_eq_false_iff_ne]
      omega
    simp [h1, h2, h3, h4]

theorem b64EncodeList_mem :
    ∀ (bs : List Nat) (ch : Char), ch ∈ b64EncodeList bs →
      ch = '=' ∨ ∃ n, n < 64 ∧ ch = b64Char n
  | [], _, h => by simp [b64EncodeList] at h
  | [a], ch, h => by
    simp only [b64EncodeList, List.mem_cons, List.not_mem_nil, or_false] at h
    rcases h with rfl | rfl | rfl | rfl
    · exact Or.inr (b64Char_surj _)
    · exact Or.inr (b64Char_surj _)
    · left; rfl
    · left; rfl
  | [a, b], ch, h => by
    simp only [b64EncodeList, List.mem_cons, List.not_mem_nil, or_false] at h
    rcases h with rfl | rfl | rfl | rfl
    · exact Or.inr (b64Char_surj _)
    · exact Or.inr (b64Char_surj _)
    · exact Or.inr (b64Char_surj _)
    · left; rfl
  | a :: b :: c :: rest, ch, h => by
    simp only [b64EncodeList, List.mem_cons] at h
    rcases h with rfl | rfl | rfl | rfl | hmem
    · exact Or.inr (b64Char_surj _)
    · exact Or.inr (b64Char_surj _)
    · exact Or.inr (b64Char_surj _)
    · exact Or.inr (b64Char_surj _)
    · exact b64EncodeList_mem rest ch hmem

theorem b64EncodeList_no_specials (bs : List Nat) (ch : Char)
    (h : ch ∈ b64EncodeList bs) : ch ≠ ',' ∧ ch ≠ '"' := by
  rcases b64EncodeList_mem bs ch h with rfl | ⟨n, hn, rfl⟩
  · exact ⟨by decide, by decide⟩
  · exact ⟨(b64Char_ne n hn).2.1, (b64Char_ne n hn).2.2.1⟩

theorem b64EncodeList_ne_nil :
    ∀ (bs : List Nat), bs ≠ [] → b64EncodeList bs ≠ []
  | [], h => absurd rfl h
  | [_], _ => by simp [b64EncodeList]
  | [_, _], _ => by simp [b64EncodeList]
  | _ :: _ :: _ :: _, _ => by simp [b64EncodeList]

/-! ### `writeHeadersLoop` character facts -/

theorem writeHeadersLoop_chars :
    ∀ (hs : List String) (c : Char), c ∈ (writeHeadersLoop hs).data →
      c = ' ' ∨ ∃ x ∈ hs, c ∈ (strToLower x).data
  | [], c, h => by simp [writeHeadersLoop] at h
  | [x], c, h => Or.inr ⟨x, by simp, h⟩
  | x :: y :: ys, c, h => by
    have hd : (writeHeadersLoop (x :: y :: ys)).data
        = (strToLower x).data ++ ' ' :: (writeHeadersLoop (y :: ys)).data := by
      show (strToLower x ++ headerParameterValueDelim ++ writeHeadersLoop (y :: ys)).data = _
      simp [String.data_append, headerParameterValueDelim]
    rw [hd] at h
    rcases List.mem_append.mp h with h1 | h2
    · exact Or.inr ⟨x, by simp, h1⟩
    · rcases List.mem_cons.mp h2 with rfl | h3
      · exact Or.inl rfl
      · rcases writeHeadersLoop_chars (y :: ys) c h3 with hsp | ⟨u, hu, hcu⟩
        · exact Or.inl hsp
        · exact Or.inr ⟨u, by simp at hu ⊢; tauto, hcu⟩

theorem writeHeadersLoop_ne_empty :
    ∀ hs : List String, hs ≠ [] → (∀ x ∈ hs, strToLower x ≠ "") →
      writeHeadersLoop hs ≠ ""
  | [], h, _ => absurd rfl h
  | [x], _, hwf => by
    show strToLower x ≠ ""
    exact hwf x (by simp)
  | x :: y :: ys, _, hwf => by
    intro habs
    have hd : (writeHeadersLoop (x :: y :: ys)).data
        = (strToLower x).data ++ ' ' :: (writeHeadersLoop (y :: ys)).data := by
      show (strToLower x ++ headerParameterValueDelim ++ writeHeadersLoop (y :: ys)).data = _
      simp [String.data_append, headerParameterValueDelim]
    have : (writeHeadersLoop (x :: y :: ys)).data = [] := by rw [habs]
    rw [hd] at this
    simp at this

/-! ### First-failure decomposition of a token list -/

theorem first_bad :
    ∀ {l : List String}, (∃ p ∈ l, hasKV p = false) →
      ∃ a p b, l = a ++ p :: b ∧ (∀ t ∈ a, hasKV t = true) ∧ hasKV p = false := by
  intro l
  induction l with
  | nil => intro h; simp at h
  | cons x xs ih =>
    intro h
    cases hx : hasKV x with
    | false => exact ⟨[], x, xs, rfl, by simp, hx⟩
    | true =>
      have hxs : ∃ p ∈ xs, hasKV p = false := by
        obtain ⟨p, hp, hbad⟩ := h
        rcases List.mem_cons.mp hp with rfl | hpr
        · rw [hx] at hbad; cases hbad
        · exact ⟨p, hpr, hbad⟩
      obtain ⟨a, p, b, heq, hgood, hbad⟩ := ih hxs
      exact ⟨x :: a, p, b, by rw [heq, List.cons_append], by
        intro t ht
        rcases List.mem_cons.mp ht with rfl | htr
        · exact hx
        · exact hgood t htr, hbad⟩

/-! ### `splitComma` at the String level -/

theorem splitComma_append (t1 t2 : String) (h1 : ∀ x ∈ t1.data, x ≠ ',') :
    splitComma (t1 ++ parameterSeparater ++ t2) = t1 :: splitComma t2 := by
  unfold splitComma
  have hd : (t1 ++ parameterSeparater ++ t2).data = t1.data ++ ',' :: t2.data := by
    simp [String.data_append, parameterSeparater]
  rw [hd, splitChar_append _ _ _ h1]
  simp [mk_data]

theorem splitComma_single (t : String) (h : ∀ x ∈ t.data, x ≠ ',') :
    splitComma t = [t] := by
  unfold splitComma
  rw [splitChar_no_sep _ _ h]
  simp [mk_data]

/-! ## Claim theorems -/

/-- C1: on the specification's worked example (a GET to `/foo` with only a
`Date` header, component list `["(request-target)", "date"]`), the code's
canonicalization produces `"\ndate: Tue, 07 Jun 2014 20:51:35 GMT"` — the
request-target line is lost because `addRequestTarget` writes it into a
`bytes.Buffer` received **by value** — and not the canonical string the
claim states, in which the request-target line appears. -/
theorem c1_requestTarget_line_dropped :
    signatureString c1Request.header [RequestTarget, dateHeader]
        (addRequestTarget c1Request)
      = Except.ok "\ndate: Tue, 07 Jun 2014 20:51:35 GMT" ∧
    signatureString c1Request.header [RequestTarget, dateHeader]
        (addRequestTarget c1Request)
      ≠ Except.ok "(request-target): get /foo\ndate: Tue, 07 Jun 2014 20:51:35 GMT" := by
  constructor
  · decide
  · decide

/-- C4: the scheme locator fails with the ambiguity error when both header
slots carry signature parameters, with the missing error when neither does,
and otherwise returns the value of exactly the slot that carries them. -/
theorem c4_scheme_locator (h : Header) :
    (sigParamsPresent (headerGet h Signature) = true →
        sigParamsPresent (headerGet h Authorization) = true →
        getSignatureScheme h = Except.error
          ("both \"" ++ Signature ++ "\" and \"" ++ Authorization
            ++ "\" have signature parameters")) ∧
    (sigParamsPresent (headerGet h Signature) = false →
        sigParamsPresent (headerGet h Authorization) = false →
        getSignatureScheme h = Except.error
          ("neither \"" ++ Signature ++ "\" nor \"" ++ Authorization
            ++ "\" have signature parameters")) ∧
    (sigParamsPresent (headerGet h Signature) = true →
        sigParamsPresent (headerGet h Authorization) = false →
        getSignatureScheme h = Except.ok (headerGet h Signature)) ∧
    (sigParamsPresent (headerGet h Signature) = false →
        sigParamsPresent (headerGet h Authorization) = true →
        getSignatureScheme h = Except.ok (headerGet h Authorization)) := by
  refine ⟨fun h1 h2 => ?_, fun h1 h2 => ?_, fun h1 h2 => ?_, fun h1 h2 => ?_⟩ <;>
    simp [getSignatureScheme, h1, h2]

/-- Witness for C4 at a concrete ambiguous header collection. -/
theorem c4_scheme_locator_witness :
    getSignatureScheme
        [("Signature", ["keyId=\"a\""]), ("Authorization", ["keyId=\"b\""])]
      = Except.error
        ("both \"" ++ Signature ++ "\" and \"" ++ Authorization
          ++ "\" have signature parameters") :=
  (c4_scheme_locator
    [("Signature", ["keyId=\"a\""]), ("Authorization", ["keyId=\"b\""])]).1
    (by decide) (by decide)

/-- C6: signing with an empty header list canonicalizes exactly the
`["date"]` component list, writes the same headers parameter as an explicit
`["date"]` list, and signing a message that lacks a date header fails with
the missing-header error for `"date"`. -/
theorem c6_default_header_list :
    (∀ (values : Header) (fn : String → String × Option String),
        signatureString values [] fn = signatureString values [dateHeader] fn) ∧
    (∀ kid algo enc : String,
        sigHeaderValue kid algo enc [] = sigHeaderValue kid algo enc [dateHeader]) ∧
    (∀ (m : Macer) (target : String) (pKey : GoKey) (kid : String) (r : Request),
        headerGetList r.header dateHeader = none →
        SignRequest ⟨m, [], target⟩ pKey kid r
          = Except.error "missing header \"date\"") := by
  refine ⟨fun values fn => rfl, fun kid algo enc => rfl,
    fun m target pKey kid r hnone => ?_⟩
  have hlow : strToLower dateHeader = dateHeader := rfl
  have hrt : (strToLower dateHeader == RequestTarget) = false := by decide
  have hstr : signatureString r.header [] (addRequestTarget r)
      = Except.error "missing header \"date\"" := by
    show sigStringLoop r.header (addRequestTarget r) [dateHeader] "" = _
    simp [sigStringLoop, hrt, hlow, hnone,
      (show ¬(dateHeader = RequestTarget) by decide)]
    rfl
  show (match signatureString r.header [] (addRequestTarget r) with
    | Except.error e => Except.error e
    | Except.ok s =>
      match signSignature ⟨m, [], target⟩ pKey s with
      | Except.error e => Except.error e
      | Except.ok enc =>
        Except.ok (setSignatureHeader r.header target kid m.name enc [])) = _
  rw [hstr]

/-- Witness for C6: a request with no headers at all fails as claimed. -/
theorem c6_default_header_list_witness :
    SignRequest ⟨demoMacer, [], Signature⟩ (GoKey.bytes []) "k"
        { method := "GET", url := "/", header := [] }
      = Except.error "missing header \"date\"" :=
  c6_default_header_list.2.2 demoMacer Signature (GoKey.bytes []) "k"
    { method := "GET", url := "/", header := [] } (by decide)

/-- C7: for a non-empty signed-headers list, the serialized header value
lists the parameters in the fixed order keyId, algorithm, headers,
signature, every value double-quoted, headers entries lowercased and
space-joined, and the algorithm parameter always present. -/
theorem c7_serialization_format (kid algo enc : String) (hs : List String)
    (hne : hs ≠ []) :
    sigHeaderValue kid algo enc hs
      = "keyId=\"" ++ kid ++ "\",algorithm=\"" ++ algo ++ "\",headers=\""
        ++ joinSpace (hs.map strToLower) ++ "\",signature=\"" ++ enc ++ "\"" := by
  have hlen : (hs.length == 0) = false := by
    cases hs with
    | nil => exact absurd rfl hne
    | cons x xs => rfl
  simp only [sigHeaderValue, hlen, Bool.false_eq_true, if_false]
  rw [writeHeadersLoop_eq]
  simp only [String.append_assoc]
  rfl

/-- Witness for C7 at a concrete parameter list. -/
theorem c7_serialization_format_witness :
    sigHeaderValue "kid-1" "hmac-sha256" "c2ln" ["Date", "Host"]
      = "keyId=\"kid-1\",algorithm=\"hmac-sha256\",headers=\""
        ++ joinSpace (["Date", "Host"].map strToLower) ++ "\",signature=\"c2ln\"" := by
  have h := c7_serialization_format "kid-1" "hmac-sha256" "c2ln" ["Date", "Host"]
    (by decide)
  rw [h]
  rfl

/-- C10: a parsed header with an explicitly empty `headers=""` parameter
yields the signed-headers list `[""]` rather than the default `["date"]`, so
parsing succeeds; and canonicalizing `[""]` against any header source
without an empty-named header fails with the missing-header error for the
empty name. -/
theorem c10_explicit_empty_headers :
    getSignatureComponents "keyId=\"k1\",signature=\"s1\",headers=\"\""
        = Except.ok ("k1", "s1", [""]) ∧
    ∀ (values : Header) (fn : String → String × Option String),
      headerGetList values "" = none →
      signatureString values [""] fn = Except.error "missing header \"\"" := by
  refine ⟨by decide, fun values fn hnone => ?_⟩
  show sigStringLoop values fn [""] "" = _
  have h1 : (strToLower "" == RequestTarget) = false := by decide
  have h2 : strToLower "" = "" := rfl
  simp [sigStringLoop, h1, h2, hnone,
    (show ¬(("" : String) = RequestTarget) by decide)]

/-- Witness for C10's canonicalization failure at a concrete header source. -/
theorem c10_explicit_empty_headers_witness :
    signatureString [("Date", ["x"])] [""] requestTargetNotPermitted
      = Except.error "missing header \"\"" :=
  c10_explicit_empty_headers.2 [("Date", ["x"])] requestTargetNotPermitted (by decide)

/-- C3: for a non-empty component list of real header identifiers, the
canonical string equals the spec's joined-lines form (lowercased identifier,
`": "`, the trimmed occurrences joined with `", "`, lines joined with a
newline and no trailing newline); and when some listed identifier is absent
(case-insensitively) from the header source, canonicalization fails with a
missing-header error naming a listed identifier. -/
theorem c3_canonical_refinement (values : Header) (toInclude : List String)
    (fn : String → String × Option String)
    (hne : toInclude ≠ [])
    (hreal : ∀ i ∈ toInclude, strToLower i ≠ RequestTarget) :
    ((∀ i ∈ toInclude, (headerGetList values (strToLower i)).isSome) →
        signatureString values toInclude fn
          = Except.ok (specCanonical values toInclude)) ∧
    ((∃ i ∈ toInclude, headerGetList values (strToLower i) = none) →
        ∃ i ∈ toInclude, signatureString values toInclude fn
          = Except.error ("missing header \"" ++ strToLower i ++ "\"")) := by
  have hlen : (toInclude.length == 0) = false := by
    cases toInclude with
    | nil => exact absurd rfl hne
    | cons x xs => rfl
  constructor
  · intro hpres
    show sigStringLoop values fn
        (if (toInclude.length == 0) = true then defaultHeaders else toInclude) ""
        = _
    rw [hlen]
    simp only [Bool.false_eq_true, if_false]
    rw [sigStringLoop_ok values fn toInclude hne hreal hpres ""]
    rfl
  · intro habs
    obtain ⟨i, hi, hres⟩ := sigStringLoop_missing values fn toInclude hreal habs ""
    refine ⟨i, hi, ?_⟩
    show sigStringLoop values fn
        (if (toInclude.length == 0) = true then defaultHeaders else toInclude) ""
        = _
    rw [hlen]
    simp only [Bool.false_eq_true, if_false]
    exact hres

/-- Witness for C3 on a concrete two-header request, including a
multi-valued header whose occurrences are trimmed and comma-joined. -/
theorem c3_canonical_refinement_witness :
    signatureString [("Date", ["x"]), ("Cache-Control", [" no-cache ", "no-store"])]
        ["date", "Cache-Control"] requestTargetNotPermitted
      = Except.ok (specCanonical
          [("Date", ["x"]), ("Cache-Control", [" no-cache ", "no-store"])]
          ["date", "Cache-Control"]) :=
  (c3_canonical_refinement
      [("Date", ["x"]), ("Cache-Control", [" no-cache ", "no-store"])]
      ["date", "Cache-Control"] requestTargetNotPermitted
      (by decide) (by decide)).1 (by decide)

/-- C5: parsing fails with the malformed-parameter error when some
comma-separated token has no `=`-delimited key/value pair; when every token
is well-formed but no token's key is exactly `keyId`, or none is exactly
`signature`, it fails with the corresponding missing-parameter error after
the scan; and when no token carries a `headers` key, a successful parse
defaults the signed-headers list to `["date"]`. -/
theorem c5_parse_errors_and_default (s : String) :
    ((∃ p ∈ splitComma s, hasKV p = false) →
        ∃ p ∈ splitComma s, hasKV p = false ∧
          getSignatureComponents s
            = Except.error ("malformed http signature parameter: [" ++ p ++ "]")) ∧
    ((∀ p ∈ splitComma s, hasKV p = true) →
        ((∀ p ∈ splitComma s, paramKey p ≠ keyIdParameter) ∨
          (∀ p ∈ splitComma s, paramKey p ≠ signatureParameter)) →
        (getSignatureComponents s
            = Except.error ("missing \"" ++ keyIdParameter
                ++ "\" parameter in http signature") ∨
          getSignatureComponents s
            = Except.error ("missing \"" ++ signatureParameter
                ++ "\" parameter in http signature"))) ∧
    ((∀ p ∈ splitComma s, hasKV p = true) →
        (∀ p ∈ splitComma s, paramKey p ≠ headersParameter) →
        ∀ k2 s2 hs2, getSignatureComponents s = Except.ok (k2, s2, hs2) →
          hs2 = defaultHeaders) := by
  refine ⟨?_, ?_, ?_⟩
  · intro hex
    obtain ⟨a, p, b, heq, hgood, hbad⟩ := first_bad hex
    refine ⟨p, by rw [heq]; simp, hbad, ?_⟩
    unfold getSignatureComponents
    rw [heq, scanParams_malformed a p b hgood hbad]
  · intro hall hnone
    rcases hnone with hk | hs2
    · obtain ⟨s2, hs2v, hscan⟩ := scanParams_keeps_kId (splitComma s) hall hk "" "" []
      unfold getSignatureComponents
      rw [hscan]
      left
      rfl
    · obtain ⟨k2, hs2v, hscan⟩ := scanParams_keeps_sig (splitComma s) hall hs2 "" "" []
      unfold getSignatureComponents
      rw [hscan]
      by_cases hk0 : (k2.length == 0) = true
      · left
        simp [hk0]
      · right
        simp [hk0]
  · intro hall hnohdr k2 s2 hs2 hok
    obtain ⟨k3, s3, hscan⟩ := scanParams_keeps_headers (splitComma s) hall hnohdr "" "" []
    unfold getSignatureComponents at hok
    rw [hscan] at hok
    by_cases hk0 : (k3.length == 0) = true
    · simp [hk0] at hok
    · by_cases hs0 : (s3.length == 0) = true
      · simp [hk0, hs0] at hok
      · simp [hk0, hs0] at hok
        exact hok.2.2.symm

/-- Witness for C5 at a header value carrying only an algorithm parameter,
which must fail with a missing-parameter error. -/
theorem c5_parse_errors_and_default_witness :
    getSignatureComponents "algorithm=\"x\""
        = Except.error ("missing \"" ++ keyIdParameter
            ++ "\" parameter in http signature") ∨
      getSignatureComponents "algorithm=\"x\""
        = Except.error ("missing \"" ++ signatureParameter
            ++ "\" parameter in http signature") :=
  (c5_parse_errors_and_default "algorithm=\"x\"").2.1 (by decide)
    (Or.inl (by decide))

theorem no_char_append (ch : Char) (s t : String)
    (hs : ∀ c ∈ s.data, c ≠ ch) (ht : ∀ c ∈ t.data, c ≠ ch) :
    ∀ c ∈ (s ++ t).data, c ≠ ch := by
  intro c hc
  rw [String.data_append] at hc
  rcases List.mem_append.mp hc with h | h
  · exact hs c h
  · exact ht c h

/-- C8: whenever a MAC sign operation succeeds, the resulting header
collection is exactly the input collection with one value appended under
the target signature-scheme key: the target key's value list is the old
one with the new signature value at the end, and every other key's values
are unchanged. (Error returns happen before the one mutation point in the
Go code, so a failed sign leaves the headers untouched by construction of
`SignRequest`.) -/
theorem c8_sign_frame (ms : MacSigner) (pKey : GoKey) (kid : String) (r : Request)
    (h2 : Header) (hok : SignRequest ms pKey kid r = Except.ok h2) :
    ∃ v, h2 = headerAdd r.header ms.targetHeader v ∧
      headerGetList h2 ms.targetHeader
        = some (((headerGetList r.header ms.targetHeader).getD []) ++ [v]) ∧
      ∀ k, canonicalMIMEHeaderKey k ≠ canonicalMIMEHeaderKey ms.targetHeader →
        headerGetList h2 k = headerGetList r.header k := by
  unfold SignRequest at hok
  split at hok
  · exact absurd hok (by simp)
  · split at hok
    · exact absurd hok (by simp)
    · rename_i enc henc
      injection hok with hinj
      subst hinj
      refine ⟨sigHeaderValue kid ms.m.name enc ms.headers, rfl, ?_, ?_⟩
      · exact headerGetList_headerAdd_self r.header ms.targetHeader _
      · intro k hk
        exact headerGetList_headerAdd_ne r.header ms.targetHeader _ k hk

/-- Witness for C8: the concrete signing of the example request; the `Date`
values are untouched and the `Signature` entry is the one appended value. -/
theorem c8_sign_frame_witness :
    headerGetList c8SignedHeader "Date" = headerGetList c1Request.header "Date" := by
  obtain ⟨v, h1, h2, h3⟩ := c8_sign_frame ⟨demoMacer, [dateHeader], Signature⟩
    (GoKey.bytes [1, 2, 3]) "test-key" c1Request c8SignedHeader (by decide)
  exact h3 "Date" (by decide)

/-- C9: parameter keys are matched without whitespace trimming and
case-sensitively: a `signature` token with a leading space after the comma
is treated as unrecognized, so parsing fails with the missing-signature
error even though the parameter textually appears; likewise a
differently-cased `KeyId` key leaves keyId missing. -/
theorem c9_exact_parameter_keys (a b : String) (ha : a ≠ "")
    (hwa : ∀ c ∈ a.data, c ≠ ',' ∧ c ≠ '"') (hwb : ∀ c ∈ b.data, c ≠ ',') :
    getSignatureComponents ("keyId=\"" ++ a ++ "\", signature=\"" ++ b ++ "\"")
        = Except.error ("missing \"" ++ signatureParameter
            ++ "\" parameter in http signature") ∧
    getSignatureComponents "KeyId=\"x\",signature=\"y\""
        = Except.error ("missing \"" ++ keyIdParameter
            ++ "\" parameter in http signature") := by
  refine ⟨?_, by decide⟩
  have hform : ("keyId=\"" ++ a ++ "\", signature=\"" ++ b ++ "\"")
      = (keyIdParameter ++ parameterKVSeparater
          ++ (parameterValueDelimiter ++ a ++ parameterValueDelimiter))
        ++ parameterSeparater
        ++ ((" signature" : String) ++ parameterKVSeparater
          ++ (parameterValueDelimiter ++ b ++ parameterValueDelimiter)) := by
    simp only [String.append_assoc]
    rfl
  rw [hform]
  have ht1 : ∀ c ∈ (keyIdParameter ++ parameterKVSeparater
      ++ (parameterValueDelimiter ++ a ++ parameterValueDelimiter)).data, c ≠ ',' := by
    refine no_char_append ',' _ _ (no_char_append ',' _ _ ?_ ?_)
      (no_char_append ',' _ _ (no_char_append ',' _ _ ?_ ?_) ?_)
    · decide
    · decide
    · decide
    · exact fun c hc => (hwa c hc).1
    · decide
  have ht2 : ∀ c ∈ ((" signature" : String) ++ parameterKVSeparater
      ++ (parameterValueDelimiter ++ b ++ parameterValueDelimiter)).data, c ≠ ',' := by
    refine no_char_append ',' _ _ (no_char_append ',' _ _ ?_ ?_)
      (no_char_append ',' _ _ (no_char_append ',' _ _ ?_ ?_) ?_)
    · decide
    · decide
    · decide
    · exact hwb
    · decide
  unfold getSignatureComponents
  rw [splitComma_append _ _ ht1, splitComma_single _ ht2]
  have hsplit1 := splitN2_of_key keyIdParameter
    (parameterValueDelimiter ++ a ++ parameterValueDelimiter) (by decide)
  have hsplit2 := splitN2_of_key (" signature")
    (parameterValueDelimiter ++ b ++ parameterValueDelimiter) (by decide)
  have htrim : trimQuotes (parameterValueDelimiter ++ a ++ parameterValueDelimiter) = a :=
    trimQuotes_wrap a ha (fun c hc => (hwa c hc).2)
  simp only [scanParams, hsplit1, hsplit2, htrim, beq_self_eq_true, if_true]
  have g1 : ((" signature" : String) == keyIdParameter) = false := by decide
  have g2 : ((" signature" : String) == algorithmParameter) = false := by decide
  have g3 : ((" signature" : String) == headersParameter) = false := by decide
  have g4 : ((" signature" : String) == signatureParameter) = false := by decide
  simp only [g1, g2, g3, g4, Bool.false_eq_true, if_false]
  have hlen : (a.length == 0) = false := by
    cases hdta : a.data with
    | nil => exact absurd (String.ext hdta) ha
    | cons c cs =>
      have : a.length = cs.length + 1 := by
        show a.data.length = cs.length + 1
        rw [hdta]
        rfl
      simp [this]
  simp [hlen]

/-- Witness for C9 at the concrete value `keyId="x", signature="y"`. -/
theorem c9_exact_parameter_keys_witness :
    getSignatureComponents "keyId=\"x\", signature=\"y\""
        = Except.error ("missing \"" ++ signatureParameter
            ++ "\" parameter in http signature") :=
  (c9_exact_parameter_keys "x" "y" (by decide) (by decide) (by decide)).1

theorem isPrefixOf_append_self (sub rest : List Char) :
    sub.isPrefixOf (sub ++ rest) = true := by
  rw [ List.isPrefixOf_iff_prefix]
  exact List.prefix_append _ _

theorem containsL_of_isPrefixOf (l sub : List Char) (hsub : sub ≠ [])
    (h : sub.isPrefixOf l = true) : containsL l sub = true := by
  cases l with
  | nil =>
    cases sub with
    | nil => exact absurd rfl hsub
    | cons c cs => simp [List.isPrefixOf] at h
  | cons x t => simp [containsL, h]

theorem isPrefixOf_append_of (sub l t : List Char) (h : sub.isPrefixOf l = true) :
    sub.isPrefixOf (l ++ t) = true := by
  rw [ List.isPrefixOf_iff_prefix] at h ⊢
  exact h.trans (List.prefix_append _ _)

/-- C2: round trip. For any message, MAC capability, key and keyId (under
the structural well-formedness side conditions that make the serialized
parameters parseable: keyId non-empty and free of `,`/`\"`, algorithm name
comma-free, effective header names non-empty and free of `,`/`\"`/spaces and
not naming the signature slot itself, MAC output non-empty bytes, and a
message that does not already carry signature parameters), if the capability
accepts its own MAC (`equal (sign data) = true`) and signing succeeds, then
`SignRequest` succeeds, building a verifier from the resulting headers
succeeds, the verifier's `KeyId` is the keyId passed to `SignRequest`, and
`Verify` with the matching shared secret succeeds. -/
theorem c2_sign_verify_roundtrip
    (M : Macer) (hdrs : List String) (r : Request) (key : List Nat) (kid : String)
    (reg : Registry) (s0 : String) (mac : List Nat)
    (hregS : reg.signers M.name = none)
    (hregM : reg.macers M.name = some M)
    (hsig : signatureString r.header hdrs (addRequestTarget r) = Except.ok s0)
    (hmac : M.sign (strBytes s0) key = Except.ok mac)
    (hmacNe : mac ≠ [])
    (hmacBytes : ∀ x ∈ mac, x < 256)
    (hmacEq : M.equal (strBytes s0) mac key = Except.ok true)
    (hkidNe : kid ≠ "")
    (hkidWf : ∀ c ∈ kid.data, c ≠ ',' ∧ c ≠ '"')
    (halgWf : ∀ c ∈ M.name.data, c ≠ ',')
    (hhdrWf : ∀ x ∈ (if (hdrs.length == 0) = true then defaultHeaders else hdrs),
        strToLower x ≠ "" ∧ ∀ c ∈ (strToLower x).data, c ≠ ',' ∧ c ≠ '"' ∧ c ≠ ' ')
    (hnosig : ∀ x ∈ (if (hdrs.length == 0) = true then defaultHeaders else hdrs),
        canonicalMIMEHeaderKey (strToLower x) ≠ Signature)
    (hnoSigHdr : headerGetList r.header Signature = none)
    (hnoAuth : headerGet r.header Authorization = "") :
    ∃ h2 v, SignRequest ⟨M, hdrs, Signature⟩ (GoKey.bytes key) kid r = Except.ok h2 ∧
      newVerifierRequest { r with header := h2 } = Except.ok v ∧
      KeyId v = kid ∧
      Verify reg v (GoKey.bytes key) M.name = Except.ok () := by
  generalize hEdef : (if (hdrs.length == 0) = true then defaultHeaders else hdrs) = E
    at hhdrWf hnosig
  have hne : E ≠ [] := by
    rw [← hEdef]
    cases hdrs with
    | nil => decide
    | cons x xs => simp
  -- the signature header value written by the signer
  have hvalEq : sigHeaderValue kid M.name (base64Encode mac) hdrs
      = (keyIdParameter ++ parameterKVSeparater
          ++ (parameterValueDelimiter ++ kid ++ parameterValueDelimiter))
        ++ parameterSeparater ++
        ((algorithmParameter ++ parameterKVSeparater
          ++ (parameterValueDelimiter ++ M.name ++ parameterValueDelimiter))
        ++ parameterSeparater ++
        ((headersParameter ++ parameterKVSeparater
          ++ (parameterValueDelimiter ++ writeHeadersLoop E ++ parameterValueDelimiter))
        ++ parameterSeparater ++
        (signatureParameter ++ parameterKVSeparater
          ++ (parameterValueDelimiter ++ base64Encode mac ++ parameterValueDelimiter)))) := by
    unfold sigHeaderValue
    rw [hEdef]
    simp only [String.append_assoc]
  -- wf facts about the effective header list entries
  have hjhChars : ∀ c ∈ (writeHeadersLoop E).data, c ≠ ',' ∧ c ≠ '"' := by
    intro c hc
    rcases writeHeadersLoop_chars E c hc with rfl | ⟨x, hx, hcx⟩
    · exact ⟨by decide, by decide⟩
    · exact ⟨((hhdrWf x hx).2 c hcx).1, ((hhdrWf x hx).2 c hcx).2.1⟩
  have hencChars : ∀ c ∈ (base64Encode mac).data, c ≠ ',' ∧ c ≠ '"' :=
    fun c hc => b64EncodeList_no_specials mac c hc
  -- comma-freeness of the four tokens
  have ht1 : ∀ c ∈ (keyIdParameter ++ parameterKVSeparater
      ++ (parameterValueDelimiter ++ kid ++ parameterValueDelimiter)).data, c ≠ ',' := by
    refine no_char_append ',' _ _ (no_char_append ',' _ _ ?_ ?_)
      (no_char_append ',' _ _ (no_char_append ',' _ _ ?_ ?_) ?_)
    · decide
    · decide
    · decide
    · exact fun c hc => (hkidWf c hc).1
    · decide
  have ht2 : ∀ c ∈ (algorithmParameter ++ parameterKVSeparater
      ++ (parameterValueDelimiter ++ M.name ++ parameterValueDelimiter)).data, c ≠ ',' := by
    refine no_char_append ',' _ _ (no_char_append ',' _ _ ?_ ?_)
      (no_char_append ',' _ _ (no_char_append ',' _ _ ?_ ?_) ?_)
    · decide
    · decide
    · decide
    · exact halgWf
    · decide
  have ht3 : ∀ c ∈ (headersParameter ++ parameterKVSeparater
      ++ (parameterValueDelimiter ++ writeHeadersLoop E ++ parameterValueDelimiter)).data,
      c ≠ ',' := by
    refine no_char_append ',' _ _ (no_char_append ',' _ _ ?_ ?_)
      (no_char_append ',' _ _ (no_char_append ',' _ _ ?_ ?_) ?_)
    · decide
    · decide
    · decide
    · exact fun c hc => (hjhChars c hc).1
    · decide
  have ht4 : ∀ c ∈ (signatureParameter ++ parameterKVSeparater
      ++ (parameterValueDelimiter ++ base64Encode mac ++ parameterValueDelimiter)).data,
      c ≠ ',' := by
    refine no_char_append ',' _ _ (no_char_append ',' _ _ ?_ ?_)
      (no_char_append ',' _ _ (no_char_append ',' _ _ ?_ ?_) ?_)
    · decide
    · decide
    · decide
    · exact fun c hc => (hencChars c hc).1
    · decide
  -- token split of the header value
  have htok : splitComma (sigHeaderValue kid M.name (base64Encode mac) hdrs)
      = [keyIdParameter ++ parameterKVSeparater
          ++ (parameterValueDelimiter ++ kid ++ parameterValueDelimiter),
         algorithmParameter ++ parameterKVSeparater
          ++ (parameterValueDelimiter ++ M.name ++ parameterValueDelimiter),
         headersParameter ++ parameterKVSeparater
          ++ (parameterValueDelimiter ++ writeHeadersLoop E ++ parameterValueDelimiter),
         signatureParameter ++ parameterKVSeparater
          ++ (parameterValueDelimiter ++ base64Encode mac ++ parameterValueDelimiter)] := by
    rw [hvalEq]
    rw [splitComma_append _ _ ht1]
    rw [splitComma_append _ _ ht2]
    rw [splitComma_append _ _ ht3]
    rw [splitComma_single _ ht4]
  -- trims of the quoted values
  have htrimKid : trimQuotes (parameterValueDelimiter ++ kid ++ parameterValueDelimiter)
      = kid :=
    trimQuotes_wrap kid hkidNe (fun c hc => (hkidWf c hc).2)
  have hjhNe : writeHeadersLoop E ≠ "" :=
    writeHeadersLoop_ne_empty E hne (fun x hx => (hhdrWf x hx).1)
  have htrimJh : trimQuotes (parameterValueDelimiter ++ writeHeadersLoop E
      ++ parameterValueDelimiter) = writeHeadersLoop E :=
    trimQuotes_wrap _ hjhNe (fun c hc => (hjhChars c hc).2)
  have hencNe : base64Encode mac ≠ "" := by
    intro habs
    have : (base64Encode mac).data = [] := by rw [habs]
    exact b64EncodeList_ne_nil mac hmacNe this
  have htrimEnc : trimQuotes (parameterValueDelimiter ++ base64Encode mac
      ++ parameterValueDelimiter) = base64Encode mac :=
    trimQuotes_wrap _ hencNe (fun c hc => (hencChars c hc).2)
  -- splitN2 of the four tokens
  have hsp1 := splitN2_of_key keyIdParameter
    (parameterValueDelimiter ++ kid ++ parameterValueDelimiter) (by decide)
  have hsp2 := splitN2_of_key algorithmParameter
    (parameterValueDelimiter ++ M.name ++ parameterValueDelimiter) (by decide)
  have hsp3 := splitN2_of_key headersParameter
    (parameterValueDelimiter ++ writeHeadersLoop E ++ parameterValueDelimiter) (by decide)
  have hsp4 := splitN2_of_key signatureParameter
    (parameterValueDelimiter ++ base64Encode mac ++ parameterValueDelimiter) (by decide)
  -- recovering the signed header list
  have hsplitJh : (splitChar ' ' (writeHeadersLoop E).data).map (fun l => (⟨l⟩ : String))
      = E.map strToLower :=
    splitChar_writeHeadersLoop E hne
      (fun x hx => ⟨(hhdrWf x hx).1, fun c hc => ((hhdrWf x hx).2 c hc).2.2⟩)
  -- length facts
  have hkidLen : (kid.length == 0) = false := by
    cases hdta : kid.data with
    | nil => exact absurd (String.ext hdta) hkidNe
    | cons c cs =>
      have : kid.length = cs.length + 1 := by
        show kid.data.length = cs.length + 1
        rw [hdta]
        rfl
      simp [this]
  have hencLen : ((base64Encode mac).length == 0) = false := by
    cases hdta : (base64Encode mac).data with
    | nil => exact absurd (String.ext hdta) hencNe
    | cons c cs =>
      have : (base64Encode mac).length = cs.length + 1 := by
        show (base64Encode mac).data.length = cs.length + 1
        rw [hdta]
        rfl
      simp [this]
  have hmapLen : ((E.map strToLower).length == 0) = false := by
    cases E with
    | nil => exact absurd rfl hne
    | cons x xs => rfl
  -- the parse of the signature header value
  have hcomp : getSignatureComponents (sigHeaderValue kid M.name (base64Encode mac) hdrs)
      = Except.ok (kid, base64Encode mac, E.map strToLower) := by
    simp only [getSignatureComponents]
    rw [htok]
    simp only [scanParams, hsp1, hsp2, hsp3, hsp4, htrimKid, htrimJh, htrimEnc]
    have g11 : (keyIdParameter == keyIdParameter) = true := by decide
    have g21 : (algorithmParameter == keyIdParameter) = false := by decide
    have g22 : (algorithmParameter == algorithmParameter) = true := by decide
    have g31 : (headersParameter == keyIdParameter) = false := by decide
    have g32 : (headersParameter == algorithmParameter) = false := by decide
    have g33 : (headersParameter == headersParameter) = true := by decide
    have g41 : (signatureParameter == keyIdParameter) = false := by decide
    have g42 : (signatureParameter == algorithmParameter) = false := by decide
    have g43 : (signatureParameter == headersParameter) = false := by decide
    have g44 : (signatureParameter == signatureParameter) = true := by decide
    simp only [g11, g21, g22, g31, g32, g33, g41, g42, g43, g44,
      Bool.false_eq_true, if_false, if_true, hsplitJh]
    simp only [hkidLen, hencLen, hmapLen, Bool.false_eq_true, if_false]
  -- the signing step
  have hsign : SignRequest ⟨M, hdrs, Signature⟩ (GoKey.bytes key) kid r
      = Except.ok (headerAdd r.header Signature
          (sigHeaderValue kid M.name (base64Encode mac) hdrs)) := by
    unfold SignRequest
    rw [hsig]
    show (match (match M.sign (strBytes s0) key with
        | Except.error e => Except.error e
        | Except.ok sig => Except.ok (base64Encode sig)) with
      | Except.error e => Except.error e
      | Except.ok enc =>
        Except.ok (setSignatureHeader r.header Signature kid M.name enc hdrs)) = _
    rw [hmac]
    rfl
  -- scheme location on the mutated header collection
  have hgetSig : headerGetList
      (headerAdd r.header Signature (sigHeaderValue kid M.name (base64Encode mac) hdrs))
      Signature = some [sigHeaderValue kid M.name (base64Encode mac) hdrs] := by
    rw [headerGetList_headerAdd_self, hnoSigHdr]
    rfl
  have hgetS : headerGet
      (headerAdd r.header Signature (sigHeaderValue kid M.name (base64Encode mac) hdrs))
      Signature = sigHeaderValue kid M.name (base64Encode mac) hdrs := by
    unfold headerGet
    rw [hgetSig]
  have hgetA : headerGet
      (headerAdd r.header Signature (sigHeaderValue kid M.name (base64Encode mac) hdrs))
      Authorization = "" := by
    unfold headerGet
    rw [headerGetList_headerAdd_ne _ _ _ _ (by decide)]
    exact hnoAuth
  have hpresS : sigParamsPresent (sigHeaderValue kid M.name (base64Encode mac) hdrs)
      = true := by
    have hpre : keyIdParameter.data.isPrefixOf
        (sigHeaderValue kid M.name (base64Encode mac) hdrs).data = true := by
      rw [hvalEq]
      simp only [String.data_append]
      exact isPrefixOf_append_of _ _ _ (isPrefixOf_append_of _ _ _
        (isPrefixOf_append_of _ _ _ (isPrefixOf_append_self _ _)))
    have hcont : strContains (sigHeaderValue kid M.name (base64Encode mac) hdrs)
        keyIdParameter = true :=
      containsL_of_isPrefixOf _ _ (by decide) hpre
    unfold sigParamsPresent
    rw [hcont]
    rfl
  have hscheme : getSignatureScheme
      (headerAdd r.header Signature (sigHeaderValue kid M.name (base64Encode mac) hdrs))
      = Except.ok (sigHeaderValue kid M.name (base64Encode mac) hdrs) := by
    simp only [getSignatureScheme, hgetS, hgetA, hpresS,
      (by decide : sigParamsPresent "" = false)]
    rfl
  -- building the verifier from the mutated request; the stored
  -- canonicalizer reads only the request's method and url, so the verifier
  -- value below (stated with `addRequestTarget r`) is definitionally the
  -- one `newVerifierRequest` constructs from the updated request
  have hnv : newVerifierRequest
      { r with header := (headerAdd r.header Signature
          (sigHeaderValue kid M.name (base64Encode mac) hdrs)) }
      = Except.ok
        ⟨headerAdd r.header Signature (sigHeaderValue kid M.name (base64Encode mac) hdrs),
         kid, base64Encode mac, E.map strToLower,
         fun h toInclude => signatureString h toInclude (addRequestTarget r)⟩ := by
    unfold newVerifierRequest newVerifier
    simp only [hscheme, hcomp]
    rfl
  -- the canonical string recomputed at verification time
  have hnosigCanon : ∀ i ∈ E,
      canonicalMIMEHeaderKey (strToLower i) ≠ canonicalMIMEHeaderKey Signature := by
    intro i hi
    rw [(by decide : canonicalMIMEHeaderKey Signature = Signature)]
    exact hnosig i hi
  have hloop : signatureString
      (headerAdd r.header Signature (sigHeaderValue kid M.name (base64Encode mac) hdrs))
      (E.map strToLower) (addRequestTarget r) = Except.ok s0 := by
    unfold signatureString
    rw [hmapLen]
    simp only [Bool.false_eq_true, if_false]
    rw [sigStringLoop_map_toLower]
    rw [sigStringLoop_headerAdd r.header Signature
      (sigHeaderValue kid M.name (base64Encode mac) hdrs) (addRequestTarget r) E
      hnosigCanon ""]
    have hexp : signatureString r.header hdrs (addRequestTarget r)
        = sigStringLoop r.header (addRequestTarget r) E "" := by
      unfold signatureString
      rw [hEdef]
    rw [← hexp, hsig]
  -- the verification step
  have hdec : base64Decode (base64Encode mac) = some mac := b64_roundtrip mac hmacBytes
  have hverify : Verify reg
      ⟨headerAdd r.header Signature (sigHeaderValue kid M.name (base64Encode mac) hdrs),
       kid, base64Encode mac, E.map strToLower,
       fun h toInclude => signatureString h toInclude (addRequestTarget r)⟩
      (GoKey.bytes key) M.name = Except.ok () := by
    simp only [Verify, hregS, hregM, macVerify, hloop, hdec, hmacEq]
  exact ⟨_, _, hsign, hnv, rfl, hverify⟩

/-- Witness for C2: the worked example, signed over `["date"]` with the toy
MAC and verified through the registry that resolves it. -/
theorem c2_sign_verify_roundtrip_witness :
    SignRequest ⟨demoMacer, [dateHeader], Signature⟩ (GoKey.bytes [1, 2, 3])
        "test-key" c1Request = Except.ok c8SignedHeader ∧
    Except.map KeyId (newVerifierRequest { c1Request with header := c8SignedHeader })
        = Except.ok "test-key" ∧
    Except.map (fun v => Verify demoRegistry v (GoKey.bytes [1, 2, 3]) demoMacer.name)
        (newVerifierRequest { c1Request with header := c8SignedHeader })
        = Except.ok (Except.ok ()) := by
  obtain ⟨h2, v, hsign, hnv, hkid, hver⟩ :=
    c2_sign_verify_roundtrip demoMacer [dateHeader] c1Request [1, 2, 3] "test-key"
      demoRegistry "date: Tue, 07 Jun 2014 20:51:35 GMT"
      ((strBytes "date: Tue, 07 Jun 2014 20:51:35 GMT" ++ [1, 2, 3]).map (· % 256))
      rfl rfl (by decide) (by decide) (by decide) (by decide) (by decide)
      (by decide) (by decide) (by decide) (by decide) (by decide) (by decide)
      (by decide)
  obtain rfl : h2 = c8SignedHeader := by
    have hconc : SignRequest ⟨demoMacer, [dateHeader], Signature⟩ (GoKey.bytes [1, 2, 3])
        "test-key" c1Request = Except.ok c8SignedHeader := by decide
    rw [hsign] at hconc
    injection hconc
  refine ⟨hsign, ?_, ?_⟩
  · rw [hnv]
    show Except.ok (KeyId v) = Except.ok "test-key"
    rw [hkid]
  · rw [hnv]
    show Except.ok (Verify demoRegistry v (GoKey.bytes [1, 2, 3]) demoMacer.name)
        = Except.ok (Except.ok ())
    rw [hver]

end Httpsig
